import Mathlib

/-!
Shallow embedding of `pytfa/optim/relaxation.py` (functions `relax_dgo` and
`relax_lc`) and proofs about it.

Modelling conventions:
* The external LP solver is an oracle: the three solver calls of each relaxer
  (initial probe, slack minimization, final re-solve) are `Except` values
  supplied as inputs, and the slack-minimization solution is a pair of maps
  from entity id to rational slack value.
* Variables of a model copy are identified by the owning entity id; symbolic
  substitution between the two deep copies (`subs_dict` in the source) is the
  identity on these identifiers, matching the spec's reading of substitution
  as a pure mapping over identifiers.
* Machine floats are modelled as rationals.
-/

namespace PyTFA

/-- Modelled from the spec: `EPSILON` is imported from `pytfa.utils.numerics`,
which is not among the sources; the spec describes it as a small positive
margin added to every applied bound delta so the relaxed bound moves strictly
past the minimal feasible point. -/
def EPSILON : ℚ := 1 / 1000000000

/-- Modelled from the spec: `BIGM_DG` is imported from `pytfa.utils.numerics`,
which is not among the sources; the spec describes it as a large finite upper
bound capping slack-variable magnitude. -/
def BIGM_DG : ℚ := 1000

/-- An atom of a linear constraint expression: either an ordinary model
variable (identified by name), or one of the slack variables injected by the
relaxers, identified by the owning entity (reaction id for
`NegSlackVariable`/`PosSlackVariable`, metabolite id for
`NegSlackLC`/`PosSlackLC`). -/
inductive Atom where
  | var (name : String)
  | posSlack (entity : String)
  | negSlack (entity : String)
deriving DecidableEq, Repr

/-- A linear expression: a formal sum of rational-coefficient atoms. -/
abbrev LinExpr := List (ℚ × Atom)

/-- Coefficient of an atom in a linear expression. -/
def coeff (e : LinExpr) (a : Atom) : ℚ :=
  (e.map (fun p => if p.2 = a then p.1 else 0)).sum

/-- `true` iff the atom is an ordinary model variable (not an injected slack). -/
def Atom.isPlainVar : Atom → Bool
  | Atom.var _ => true
  | Atom.posSlack _ => false
  | Atom.negSlack _ => false

/-- A bounded decision variable: `id` is the owning entity's identifier
(reaction id for `DeltaGstd`, metabolite id for `LogConcentration`), and
`lb`/`ub` its numeric bounds. -/
structure Var where
  id : String
  lb : ℚ
  ub : ℚ
deriving DecidableEq, Repr

/-- A reaction: its id and its metabolites with stoichiometric coefficients
(`reaction.metabolites` in the source). -/
structure Reaction where
  id : String
  mets : List (String × ℚ)
deriving DecidableEq, Repr

/-- Stoichiometric coefficient of metabolite `m` in reaction `r`
(`this_neg_dg.reaction.metabolites[the_met]` in the source; the source would
raise a `KeyError` for an absent metabolite, here the lookup defaults to 0 —
no claim depends on the absent case). -/
def Reaction.stoich (r : Reaction) (m : String) : ℚ :=
  ((r.mets.find? (fun p => p.1 = m)).map Prod.snd).getD 0

/-- A `NegativeDeltaG` constraint: keyed by the owning reaction's id, holding
the reaction, the names of the variables occurring in its expression
(`constraint.variables`), and the expression itself. -/
structure NegDG where
  id : String
  reaction : Reaction
  vars : List String
  expr : LinExpr
deriving DecidableEq, Repr

/-- The thermodynamic model state the two relaxers read: reactions,
metabolite ids, `DeltaGstd` variables (keyed by reaction id),
`LogConcentration` variables (keyed by metabolite id), `NegativeDeltaG`
constraints, and the thermodynamic scaling factor `RT`. -/
structure TModel where
  reactions : List Reaction
  metabolites : List String
  dgoVars : List Var
  lcVars : List Var
  negDG : List NegDG
  RT : ℚ
deriving Repr

/-- The slack model built by `relax_dgo` (lines 68-104): rewritten
`NegativeDeltaG` constraints, the injected `NegSlackVariable`s and
`PosSlackVariable`s, and the accumulated slack-sum objective. -/
structure SlackModelDgo where
  constrs : List NegDG
  negSlackVars : List Var
  posSlackVars : List Var
  objective : LinExpr
deriving DecidableEq, Repr

/-- The slack model built by `relax_lc` (lines 218-267): same shape, with
`NegSlackLC`/`PosSlackLC` variables keyed by metabolite id. -/
structure SlackModelLC where
  constrs : List NegDG
  negSlackVars : List Var
  posSlackVars : List Var
  objective : LinExpr
deriving DecidableEq, Repr

/-- `relax_dgo`'s slack-injection loop (lines 68-104).  For each
`NegativeDeltaG` constraint: skip it (leave it in place, create nothing) when
its reaction is ignored or has no `DeltaGstd` variable; otherwise create the
slack pair with bounds `[0, BIGM_DG]`, rewrite the constraint's expression to
`expr + (pos_slack - neg_slack)` (substitution into the slack-model namespace
being the identity on identifiers), and add `neg_slack + pos_slack` to the
objective.  The source removes and re-adds the rewritten constraint, which
moves it to the end of the registry; constraint-registry order is not
modelled, the rewritten constraint keeps its position here. -/
def injectDgo (ign dgoIds : List String) : List NegDG → SlackModelDgo
  | [] => ⟨[], [], [], []⟩
  | c :: cs =>
    let rest := injectDgo ign dgoIds cs
    if c.id ∈ ign ∨ c.id ∉ dgoIds then
      ⟨c :: rest.constrs, rest.negSlackVars, rest.posSlackVars, rest.objective⟩
    else
      ⟨{ c with expr := c.expr ++ [(1, Atom.posSlack c.id), (-1, Atom.negSlack c.id)] }
         :: rest.constrs,
       ⟨c.id, 0, BIGM_DG⟩ :: rest.negSlackVars,
       ⟨c.id, 0, BIGM_DG⟩ :: rest.posSlackVars,
       [(1, Atom.negSlack c.id), (1, Atom.posSlack c.id)] ++ rest.objective⟩

/-- `relax_lc`'s first loop (lines 218-233): for each `LogConcentration`
variable, create a `NegSlackLC`/`PosSlackLC` pair with bounds `[0, BIGM_DG]`
and add both to the objective.  The source guards this with
`this_lc.name in metabolites_to_ignore` (line 219), but `this_lc.name` is
the prefixed solver-level name of the variable (cf. its matching use against
the constraint variables' names at line 250), never a bare metabolite id, so
against the bare-id ignore sets that the read-back loop tests (line 292) the
check never fires: slack pairs are created for ignored metabolites too.
The dead check is therefore embedded as unconditional pair creation; the
ignore set stays as an (unused) parameter to mirror the call site.  Returns
(neg slack variables, pos slack variables, objective). -/
def lcSlackPairs (_ign : List String) : List Var → List Var × List Var × LinExpr
  | [] => ([], [], [])
  | lc :: lcs =>
    let rest := lcSlackPairs _ign lcs
    (⟨lc.id, 0, BIGM_DG⟩ :: rest.1,
     ⟨lc.id, 0, BIGM_DG⟩ :: rest.2.1,
     [(1, Atom.negSlack lc.id), (1, Atom.posSlack lc.id)] ++ rest.2.2)

/-- The slack terms `relax_lc` adds to one constraint (lines 249-257): for
each variable of the constraint that has an injected slack pair (its name is
a key of the `neg_slack` dict, i.e. is in `ents`), the term
`RT * stoich * (pos_slack - neg_slack)`. -/
def slackContribution (RT : ℚ) (r : Reaction) (ents : List String)
    (vs : List String) : LinExpr :=
  (vs.filter (fun v => v ∈ ents)).flatMap (fun v =>
    [(RT * r.stoich v, Atom.posSlack v), (-(RT * r.stoich v), Atom.negSlack v)])

/-- Rewriting of one `NegativeDeltaG` constraint by `relax_lc` (lines
242-267): substitute the variables into the slack-model namespace (identity
on identifiers) and append the slack contribution of every variable that has
a slack pair. -/
def rewriteLC (RT : ℚ) (ents : List String) (c : NegDG) : NegDG :=
  { c with expr := c.expr ++ slackContribution RT c.reaction ents c.vars }

/-- `relax_lc`'s constraint loop (lines 235-267) with its guard (lines
238-239): a constraint whose id is *not* in the iterated collection
`my_neg_dg` is skipped (left unchanged), every other one is rewritten. -/
def lcRewriteAll (RT : ℚ) (ents : List String) (cs : List NegDG) : List NegDG :=
  cs.map (fun c => if c.id ∈ cs.map NegDG.id then rewriteLC RT ents c else c)

/-- One row of the relaxation report: lines 153-159 / 317-323. -/
structure Row where
  key : String
  lb_in : ℚ
  ub_in : ℚ
  lb_change : ℚ
  ub_change : ℚ
  lb_out : ℚ
  ub_out : ℚ
deriving DecidableEq, Repr

/-- The relaxation report table: named columns plus rows in insertion order
(the source builds an `OrderedDict` and converts it to a `DataFrame`). -/
structure Table where
  columns : List String
  rows : List Row
deriving DecidableEq, Repr

/-- The fixed column labels assigned at lines 167-172 / 331-336. -/
def reportColumns : List String :=
  ["lb_in", "ub_in", "lb_change", "ub_change", "lb_out", "ub_out"]

/-- The error raised by the report formatting when no entity was relaxed:
`pd.DataFrame.from_dict` on the empty `changes` dict yields a 0-column
frame, and assigning the six column labels (lines 167-172 / 331-336) then
raises a pandas length-mismatch `ValueError`. -/
def lengthMismatchError : String := "ValueError: Length mismatch"

/-- Values of the slack variables in the solution of the slack-minimization
solve, keyed by owning entity id (`neg_slack_values` / `pos_slack_values`). -/
structure SlackSol where
  negVal : String → ℚ
  posVal : String → ℚ

/-- The three blocking solver calls of a relaxer, as oracles: the initial
probe on the untouched input model (line 51/198), the slack-model
minimization (line 114/278), and the final relaxed-model solve (line
162/326).  `probeStatus` is `tmodel.solver.status` read in the handler. -/
structure Oracles where
  probe : Except String Unit
  probeStatus : String
  slackSolve : Except String SlackSol
  finalSolve : Except String Unit

/-- The probe solve inside `try/except SolverError` (lines 50-55 / 197-202):
a failure is logged (error, then a solver-status warning) and swallowed. -/
def probeLog (o : Oracles) : List String :=
  match o.probe with
  | Except.ok _ => []
  | Except.error e => ["error: " ++ e, "warning: solver status " ++ o.probeStatus]

/-- The bound-widening read-back loop shared verbatim by `relax_dgo` (lines
126-159) and `relax_lc` (lines 290-323).  Iterate the entity ids in model
order; skip an entity in the ignore set or without a thermodynamic variable;
otherwise read its two slack values from the solution and, if either is
strictly positive, shift the variable's bounds outward by `value + EPSILON`
and record a report row (previous bounds, raw deltas, new bounds). -/
def readBackLoop (ign : List String) (nv pv : String → ℚ) :
    List String → List Var → List Var × List Row
  | [], vars => (vars, [])
  | r :: rs, vars =>
    if r ∈ ign then readBackLoop ign nv pv rs vars
    else
      match vars.find? (fun v => v.id == r) with
      | none => readBackLoop ign nv pv rs vars
      | some v =>
        if 0 < nv r ∨ 0 < pv r then
          let v2 : Var := ⟨v.id, v.lb - (nv r + EPSILON), v.ub + (pv r + EPSILON)⟩
          let rest := readBackLoop ign nv pv rs
            (vars.map (fun w => if w.id == r then v2 else w))
          (rest.1, ⟨r, v.lb, v.ub, nv r, pv r, v2.lb, v2.ub⟩ :: rest.2)
        else readBackLoop ign nv pv rs vars

/-- Result of `relax_dgo`: the relaxed model's `DeltaGstd` variables (the
only bounds the function touches), the slack model, the report table, and
the log lines emitted by the probe handler. -/
structure RelaxDgoOut where
  dgoVars : List Var
  slackModel : SlackModelDgo
  table : Table
  log : List String
deriving Repr

/-- Result of `relax_lc`, mutatis mutandis. -/
structure RelaxLCOut where
  lcVars : List Var
  slackModel : SlackModelLC
  table : Table
  log : List String
deriving Repr

/-- `relax_dgo` (lines 32-176).  The probe solve is guarded by
`try/except`; the slack-minimization solve and the final relaxed-model solve
are not, so their failures propagate (`Except.error`).  After the final
solve (line 162) the report is formatted (lines 165-172): when no entity was
relaxed, the column assignment on the 0-column DataFrame raises, so the
empty-report path never returns.  The source reads the slack values through
`get_by_id` on the slack-variable collections; this is modelled by total
maps keyed by entity id. -/
def relax_dgo (m : TModel) (reactions_to_ignore : List String) (o : Oracles) :
    Except String RelaxDgoOut :=
  let log0 := probeLog o
  let sm := injectDgo reactions_to_ignore (m.dgoVars.map Var.id) m.negDG
  match o.slackSolve with
  | Except.error e => Except.error e
  | Except.ok sol =>
    let rb := readBackLoop reactions_to_ignore sol.negVal sol.posVal
      (m.reactions.map Reaction.id) m.dgoVars
    match o.finalSolve with
    | Except.error e => Except.error e
    | Except.ok _ =>
      if rb.2 = [] then Except.error lengthMismatchError
      else Except.ok ⟨rb.1, sm, ⟨reportColumns, rb.2⟩, log0⟩

/-- `relax_lc` (lines 178-340).  Slack pairs are created once per
`LogConcentration` variable (the line-219 ignore check never fires, see
`lcSlackPairs`), every `NegativeDeltaG` constraint is rewritten through
`lcRewriteAll`, and the read-back loop runs over the metabolite list against
the `LogConcentration` variables.  As in `relax_dgo`, the column assignment
(lines 331-336) raises when the report is empty. -/
def relax_lc (m : TModel) (metabolites_to_ignore : List String) (o : Oracles) :
    Except String RelaxLCOut :=
  let log0 := probeLog o
  let pairs := lcSlackPairs metabolites_to_ignore m.lcVars
  let ents := pairs.1.map Var.id
  let sm : SlackModelLC :=
    ⟨lcRewriteAll m.RT ents m.negDG, pairs.1, pairs.2.1, pairs.2.2⟩
  match o.slackSolve with
  | Except.error e => Except.error e
  | Except.ok sol =>
    let rb := readBackLoop metabolites_to_ignore sol.negVal sol.posVal
      m.metabolites m.lcVars
    match o.finalSolve with
    | Except.error e => Except.error e
    | Except.ok _ =>
      if rb.2 = [] then Except.error lengthMismatchError
      else Except.ok ⟨rb.1, sm, ⟨reportColumns, rb.2⟩, log0⟩

/-- Feasibility of the slack solution with respect to the slack variables'
bounds, as injected by `relax_dgo`: the solver contract for the
slack-minimization solve. -/
def solFeasibleDgo (sm : SlackModelDgo) (sol : SlackSol) : Prop :=
  (∀ v ∈ sm.negSlackVars, v.lb ≤ sol.negVal v.id ∧ sol.negVal v.id ≤ v.ub) ∧
  (∀ v ∈ sm.posSlackVars, v.lb ≤ sol.posVal v.id ∧ sol.posVal v.id ≤ v.ub)

/-- Feasibility of the slack solution with respect to the slack variables'
bounds, as injected by `relax_lc`. -/
def solFeasibleLC (sm : SlackModelLC) (sol : SlackSol) : Prop :=
  (∀ v ∈ sm.negSlackVars, v.lb ≤ sol.negVal v.id ∧ sol.negVal v.id ≤ v.ub) ∧
  (∀ v ∈ sm.posSlackVars, v.lb ≤ sol.posVal v.id ∧ sol.posVal v.id ≤ v.ub)

/-- Everything the read-back loop guarantees about a single emitted report
row: its entity is not ignored and has a thermodynamic variable, the deltas
are exactly the two slack values of which at least one is strictly positive,
and the new bounds are the old ones shifted outward by delta plus epsilon. -/
def RowSpec (ign : List String) (nv pv : String → ℚ) (ids : List String)
    (row : Row) : Prop :=
  row.key ∉ ign ∧ row.key ∈ ids ∧
  row.lb_change = nv row.key ∧ row.ub_change = pv row.key ∧
  (0 < row.lb_change ∨ 0 < row.ub_change) ∧
  row.lb_out = row.lb_in - (row.lb_change + EPSILON) ∧
  row.ub_out = row.ub_in + (row.ub_change + EPSILON)

/-! Concrete instances used by witnesses and counterexamples. -/

/-- A reaction `R1` consuming two units of metabolite `M1` (the spec's
end-to-end concentration scenario uses stoichiometric coefficient −2). -/
def rxnW : Reaction := ⟨"R1", [("M1", -2)]⟩

/-- The `NegativeDeltaG` constraint of `R1`; its variable list contains the
log-concentration variable of `M1`. -/
def cW : NegDG := ⟨"R1", rxnW, ["M1"], [(1, Atom.var "G_R1")]⟩

/-- A one-reaction, one-metabolite model with `DeltaGstd` bounds `[-50, 50]`
and log-concentration bounds `[-10, 10]`. -/
def mW : TModel := ⟨[rxnW], ["M1"], [⟨"R1", -50, 50⟩], [⟨"M1", -10, 10⟩], [cW], 5 / 2⟩

/-- A slack solution giving `R1` (and `M1`) negative slack 2 and positive
slack 3. -/
def solW : SlackSol :=
  ⟨fun e => if e = "R1" then 2 else if e = "M1" then 2 else 0,
   fun e => if e = "R1" then 3 else if e = "M1" then 3 else 0⟩

/-- Oracles where every solve succeeds, returning `solW`. -/
def oW : Oracles := ⟨Except.ok (), "optimal", Except.ok solW, Except.ok ()⟩

/-- The all-zero slack solution. -/
def solZ : SlackSol := ⟨fun _ => 0, fun _ => 0⟩

/-- Oracles where every solve succeeds, returning the all-zero solution. -/
def oZ : Oracles := ⟨Except.ok (), "optimal", Except.ok solZ, Except.ok ()⟩

/-- Oracles whose probe solve fails. -/
def oProbeFail : Oracles :=
  ⟨Except.error "probe boom", "infeasible", Except.ok solW, Except.ok ()⟩

/-- Oracles whose slack-minimization solve fails. -/
def oSlackFail : Oracles :=
  ⟨Except.ok (), "optimal", Except.error "slack boom", Except.ok ()⟩

/-- Oracles whose final relaxed-model solve fails. -/
def oFinalFail : Oracles :=
  ⟨Except.ok (), "optimal", Except.ok solW, Except.error "final boom"⟩

/-- A second reaction `R2` producing one unit of metabolite `M2`. -/
def rxn2 : Reaction := ⟨"R2", [("M2", 1)]⟩

/-- The `NegativeDeltaG` constraint of `R2`. -/
def c2 : NegDG := ⟨"R2", rxn2, ["M2"], [(1, Atom.var "G_R2")]⟩

/-- A two-reaction, two-metabolite model, used where one entity must stay
relaxable while another is ignored or missing. -/
def mW2 : TModel :=
  ⟨[rxnW, rxn2], ["M1", "M2"],
   [⟨"R1", -50, 50⟩, ⟨"R2", -30, 30⟩],
   [⟨"M1", -10, 10⟩, ⟨"M2", -20, 20⟩],
   [cW, c2], 5 / 2⟩

/-- A slack solution strictly positive on all four entities. -/
def solW2 : SlackSol :=
  ⟨fun e => if e = "R1" then 2 else if e = "R2" then 1 else
      if e = "M1" then 2 else if e = "M2" then 1 else 0,
   fun e => if e = "R1" then 3 else if e = "R2" then 2 else
      if e = "M1" then 3 else if e = "M2" then 4 else 0⟩

/-- Oracles where every solve succeeds, returning `solW2`. -/
def oW2 : Oracles := ⟨Except.ok (), "optimal", Except.ok solW2, Except.ok ()⟩

/-! Helper lemmas about the read-back loop. -/

lemma filter_map_invariant (p : Var → Bool) (f : Var → Var)
    (h1 : ∀ w, p (f w) = p w) (h2 : ∀ w, p w = true → f w = w) :
    ∀ l : List Var, (l.map f).filter p = l.filter p := by
  intro l
  induction l with
  | nil => rfl
  | cons w l ih =>
    by_cases hw : p w = true
    · simp only [List.map_cons, List.filter_cons, h1 w, hw, if_true, h2 w hw, ih]
    · simp only [Bool.not_eq_true] at hw
      simp only [List.map_cons, List.filter_cons, h1 w, hw, Bool.false_eq_true,
        if_false, ih]

lemma update_map_id (r : String) (v2 : Var) (hv : v2.id = r) :
    ∀ l : List Var,
      (l.map (fun w => if w.id == r then v2 else w)).map Var.id = l.map Var.id := by
  intro l
  induction l with
  | nil => rfl
  | cons w l ih =>
    by_cases hw : w.id = r
    · simp only [List.map_cons, hw, beq_self_eq_true, if_true, ih, hv]
    · have : (w.id == r) = false := by simp [hw]
      simp only [List.map_cons, this, Bool.false_eq_true, if_false, ih]

lemma readBack_ids (ign : List String) (nv pv : String → ℚ) :
    ∀ (rs : List String) (vars : List Var),
      ((readBackLoop ign nv pv rs vars).1).map Var.id = vars.map Var.id := by
  intro rs
  induction rs with
  | nil => intro vars; rfl
  | cons r rs ih =>
    intro vars
    simp only [readBackLoop]
    by_cases hr : r ∈ ign
    · simp only [hr, if_true, ih]
    · simp only [hr, if_false]
      cases hf : vars.find? (fun v => v.id == r) with
      | none => exact ih vars
      | some v =>
        have hvid : v.id = r := by
          have := List.find?_some hf
          simpa using this
        by_cases hp : 0 < nv r ∨ 0 < pv r
        · simp only [hp, if_true]
          rw [ih]
          exact update_map_id r ⟨v.id, v.lb - (nv r + EPSILON), v.ub + (pv r + EPSILON)⟩
            hvid _
        · simp only [hp, if_false, ih]

lemma readBack_rows_spec (ign : List String) (nv pv : String → ℚ) :
    ∀ (rs : List String) (vars : List Var),
      ∀ row ∈ (readBackLoop ign nv pv rs vars).2,
        RowSpec ign nv pv (vars.map Var.id) row := by
  intro rs
  induction rs with
  | nil => intro vars row h; simp [readBackLoop] at h
  | cons r rs ih =>
    intro vars row h
    simp only [readBackLoop] at h
    by_cases hr : r ∈ ign
    · simp only [hr, if_true] at h; exact ih vars row h
    · simp only [hr, if_false] at h
      cases hf : vars.find? (fun v => v.id == r) with
      | none => rw [hf] at h; exact ih vars row h
      | some v =>
        rw [hf] at h
        have hvid : v.id = r := by
          have := List.find?_some hf
          simpa using this
        have hvmem : v ∈ vars := List.mem_of_find?_eq_some hf
        by_cases hp : 0 < nv r ∨ 0 < pv r
        · simp only [hp, if_true, List.mem_cons] at h
          rcases h with hhead | htail
          · subst hhead
            refine ⟨hr, ?_, rfl, rfl, hp, rfl, rfl⟩
            exact hvid ▸ List.mem_map_of_mem Var.id hvmem
          · have := ih _ row htail
            rwa [update_map_id r
              ⟨v.id, v.lb - (nv r + EPSILON), v.ub + (pv r + EPSILON)⟩ hvid] at this
        · simp only [hp, if_false] at h
          exact ih vars row h

lemma readBack_mem_rows (ign : List String) (nv pv : String → ℚ) :
    ∀ (rs : List String) (vars : List Var) (e : String),
      e ∈ rs → e ∉ ign → e ∈ vars.map Var.id → (0 < nv e ∨ 0 < pv e) →
      ∃ row ∈ (readBackLoop ign nv pv rs vars).2, row.key = e := by
  intro rs
  induction rs with
  | nil => intro vars e he; simp at he
  | cons r rs ih =>
    intro vars e he hign hmem hpos
    simp only [readBackLoop]
    by_cases hr : r ∈ ign
    · have hne : e ≠ r := fun h => hign (h ▸ hr)
      have he' : e ∈ rs := by
        rcases List.mem_cons.mp he with h | h
        · exact absurd h hne
        · exact h
      simp only [hr, if_true]
      exact ih vars e he' hign hmem hpos
    · simp only [hr, if_false]
      cases hf : vars.find? (fun v => v.id == r) with
      | none =>
        have hne : e ≠ r := by
          intro h
          subst h
          rw [List.find?_eq_none] at hf
          rcases List.mem_map.mp hmem with ⟨v, hv, hvid⟩
          exact hf v hv (by simp [hvid])
        have he' : e ∈ rs := by
          rcases List.mem_cons.mp he with h | h
          · exact absurd h hne
          · exact h
        exact ih vars e he' hign hmem hpos
      | some v =>
        have hvid : v.id = r := by
          have := List.find?_some hf
          simpa using this
        by_cases hp : 0 < nv r ∨ 0 < pv r
        · simp only [hp, if_true]
          by_cases hne : e = r
          · exact ⟨_, List.mem_cons_self _ _, hne.symm⟩
          · have he' : e ∈ rs := by
              rcases List.mem_cons.mp he with h | h
              · exact absurd h hne
              · exact h
            have hmem' :
                e ∈ (vars.map (fun w => if w.id == r then
                  (⟨v.id, v.lb - (nv r + EPSILON), v.ub + (pv r + EPSILON)⟩ : Var)
                  else w)).map Var.id := by
              rw [update_map_id r
                ⟨v.id, v.lb - (nv r + EPSILON), v.ub + (pv r + EPSILON)⟩ hvid]
              exact hmem
            rcases ih _ e he' hign hmem' hpos with ⟨row, hrow, hkey⟩
            exact ⟨row, List.mem_cons_of_mem _ hrow, hkey⟩
        · have hne : e ≠ r := by
            intro h
            subst h
            exact hp hpos
          have he' : e ∈ rs := by
            rcases List.mem_cons.mp he with h | h
            · exact absurd h hne
            · exact h
          simp only [hp, if_false]
          exact ih vars e he' hign hmem hpos

lemma readBack_zero (ign : List String) (nv pv : String → ℚ) :
    ∀ (rs : List String) (vars : List Var),
      (∀ e ∈ rs, e ∉ ign → e ∈ vars.map Var.id → nv e = 0 ∧ pv e = 0) →
      readBackLoop ign nv pv rs vars = (vars, []) := by
  intro rs
  induction rs with
  | nil => intro vars _; rfl
  | cons r rs ih =>
    intro vars hz
    simp only [readBackLoop]
    by_cases hr : r ∈ ign
    · simp only [hr, if_true]
      exact ih vars (fun e he => hz e (List.mem_cons_of_mem _ he))
    · simp only [hr, if_false]
      cases hf : vars.find? (fun v => v.id == r) with
      | none => exact ih vars (fun e he => hz e (List.mem_cons_of_mem _ he))
      | some v =>
        have hvid : v.id = r := by
          have := List.find?_some hf
          simpa using this
        have hvmem : v ∈ vars := List.mem_of_find?_eq_some hf
        have hrid : r ∈ vars.map Var.id :=
          hvid ▸ List.mem_map_of_mem Var.id hvmem
        have h0 := hz r (List.mem_cons_self _ _) hr hrid
        have hp : ¬ (0 < nv r ∨ 0 < pv r) := by
          rw [h0.1, h0.2]
          simp
        simp only [hp, if_false]
        exact ih vars (fun e he => hz e (List.mem_cons_of_mem _ he))

lemma readBack_filter_ign (ign : List String) (nv pv : String → ℚ) (E : String)
    (hE : E ∈ ign) :
    ∀ (rs : List String) (vars : List Var),
      ((readBackLoop ign nv pv rs vars).1).filter (fun v => v.id == E) =
        vars.filter (fun v => v.id == E) := by
  intro rs
  induction rs with
  | nil => intro vars; rfl
  | cons r rs ih =>
    intro vars
    simp only [readBackLoop]
    by_cases hr : r ∈ ign
    · simp only [hr, if_true, ih]
    · simp only [hr, if_false]
      cases hf : vars.find? (fun v => v.id == r) with
      | none => exact ih vars
      | some v =>
        have hvid : v.id = r := by
          have := List.find?_some hf
          simpa using this
        have hrE : r ≠ E := fun h => hr (h ▸ hE)
        by_cases hp : 0 < nv r ∨ 0 < pv r
        · simp only [hp, if_true]
          rw [ih]
          refine filter_map_invariant _ _ ?_ ?_ vars
          · intro w
            by_cases hw : w.id = r
            · have h1 : (w.id == r) = true := by simp [hw]
              have h2 : ((⟨v.id, v.lb - (nv r + EPSILON),
                  v.ub + (pv r + EPSILON)⟩ : Var).id == E) = false := by
                simp [hvid, hrE]
              have h3 : (w.id == E) = false := by simp [hw, hrE]
              simp only [h1, if_true, h2, h3]
            · have h1 : (w.id == r) = false := by simp [hw]
              simp only [h1, Bool.false_eq_true, if_false]
          · intro w hw
            have hwE : w.id = E := by simpa using hw
            have h1 : (w.id == r) = false := by
              simp [hwE]
              exact fun h => hrE h.symm
            simp only [h1, Bool.false_eq_true, if_false]
        · simp only [hp, if_false]
          exact ih vars

lemma readBack_rows_sublist (ign : List String) (nv pv : String → ℚ) :
    ∀ (rs : List String) (vars : List Var),
      List.Sublist (((readBackLoop ign nv pv rs vars).2).map Row.key) rs := by
  intro rs
  induction rs with
  | nil => intro vars; simp [readBackLoop]
  | cons r rs ih =>
    intro vars
    simp only [readBackLoop]
    by_cases hr : r ∈ ign
    · simp only [hr, if_true]
      exact (ih vars).cons r
    · simp only [hr, if_false]
      cases hf : vars.find? (fun v => v.id == r) with
      | none => exact (ih vars).cons r
      | some v =>
        by_cases hp : 0 < nv r ∨ 0 < pv r
        · simp only [hp, if_true, List.map_cons]
          exact (ih _).cons₂ r
        · simp only [hp, if_false]
          exact (ih vars).cons r

/-! Helper lemmas about the slack-injection passes. -/

lemma injectDgo_pos_eq_neg (ign dgoIds : List String) :
    ∀ cs : List NegDG,
      (injectDgo ign dgoIds cs).posSlackVars = (injectDgo ign dgoIds cs).negSlackVars := by
  intro cs
  induction cs with
  | nil => rfl
  | cons c cs ih =>
    simp only [injectDgo]
    by_cases hg : c.id ∈ ign ∨ c.id ∉ dgoIds
    · simp only [hg, if_true, ih]
    · simp only [hg, if_false, ih]

lemma injectDgo_neg_shape (ign dgoIds : List String) :
    ∀ cs : List NegDG, ∀ v ∈ (injectDgo ign dgoIds cs).negSlackVars,
      v.lb = 0 ∧ v.ub = BIGM_DG := by
  intro cs
  induction cs with
  | nil => intro v hv; simp [injectDgo] at hv
  | cons c cs ih =>
    intro v hv
    simp only [injectDgo] at hv
    by_cases hg : c.id ∈ ign ∨ c.id ∉ dgoIds
    · rw [if_pos hg] at hv
      exact ih v hv
    · rw [if_neg hg] at hv
      simp only [List.mem_cons] at hv
      rcases hv with h | h
      · subst h; exact ⟨rfl, rfl⟩
      · exact ih v h

lemma injectDgo_neg_mem (ign dgoIds : List String) :
    ∀ (cs : List NegDG) (e : String),
      e ∈ ((injectDgo ign dgoIds cs).negSlackVars.map Var.id) ↔
        ((∃ c ∈ cs, c.id = e) ∧ e ∉ ign ∧ e ∈ dgoIds) := by
  intro cs
  induction cs with
  | nil => intro e; simp [injectDgo]
  | cons c cs ih =>
    intro e
    simp only [injectDgo]
    by_cases hg : c.id ∈ ign ∨ c.id ∉ dgoIds
    · rw [if_pos hg]
      rw [ih]
      constructor
      · rintro ⟨⟨c', hc', hce⟩, h2, h3⟩
        exact ⟨⟨c', List.mem_cons_of_mem _ hc', hce⟩, h2, h3⟩
      · rintro ⟨⟨c', hc', hce⟩, h2, h3⟩
        rcases List.mem_cons.mp hc' with h | h
        · subst h
          subst hce
          rcases hg with h | h
          · exact absurd h h2
          · exact absurd h3 h
        · exact ⟨⟨c', h, hce⟩, h2, h3⟩
    · rw [if_neg hg]
      push_neg at hg
      simp only [List.map_cons, List.mem_cons]
      rw [ih]
      constructor
      · rintro (rfl | ⟨⟨c', hc', hce⟩, h2, h3⟩)
        · exact ⟨⟨c, Or.inl rfl, rfl⟩, hg.1, hg.2⟩
        · exact ⟨⟨c', Or.inr hc', hce⟩, h2, h3⟩
      · rintro ⟨⟨c', hc', hce⟩, h2, h3⟩
        rcases hc' with h | h
        · subst h; exact Or.inl hce.symm
        · exact Or.inr ⟨⟨c', h, hce⟩, h2, h3⟩

lemma injectDgo_constrs_filter (ign dgoIds : List String) (E : String)
    (hE : E ∈ ign ∨ E ∉ dgoIds) :
    ∀ cs : List NegDG,
      ((injectDgo ign dgoIds cs).constrs).filter (fun c => c.id == E) =
        cs.filter (fun c => c.id == E) := by
  intro cs
  induction cs with
  | nil => rfl
  | cons c cs ih =>
    simp only [injectDgo]
    by_cases hg : c.id ∈ ign ∨ c.id ∉ dgoIds
    · rw [if_pos hg]
      simp only [List.filter_cons, ih]
    · rw [if_neg hg]
      push_neg at hg
      have hne : c.id ≠ E := by
        intro h
        subst h
        rcases hE with h | h
        · exact hg.1 h
        · exact h hg.2
      have hb : (c.id == E) = false := by simp [hne]
      simp only [List.filter_cons, hb, Bool.false_eq_true, if_false, ih]

lemma lcSlackPairs_pos_eq_neg (ign : List String) :
    ∀ lcs : List Var, (lcSlackPairs ign lcs).2.1 = (lcSlackPairs ign lcs).1 := by
  intro lcs
  induction lcs with
  | nil => rfl
  | cons lc lcs ih => simp only [lcSlackPairs, ih]

lemma lcSlackPairs_neg_shape (ign : List String) :
    ∀ lcs : List Var, ∀ v ∈ (lcSlackPairs ign lcs).1,
      v.lb = 0 ∧ v.ub = BIGM_DG := by
  intro lcs
  induction lcs with
  | nil => intro v hv; simp [lcSlackPairs] at hv
  | cons lc lcs ih =>
    intro v hv
    simp only [lcSlackPairs, List.mem_cons] at hv
    rcases hv with h | h
    · subst h; exact ⟨rfl, rfl⟩
    · exact ih v h

lemma lcSlackPairs_ids (ign : List String) :
    ∀ lcs : List Var, (lcSlackPairs ign lcs).1.map Var.id = lcs.map Var.id := by
  intro lcs
  induction lcs with
  | nil => rfl
  | cons lc lcs ih => simp only [lcSlackPairs, List.map_cons, ih]

lemma lcRewriteAll_eq_map (RT : ℚ) (ents : List String) (cs : List NegDG) :
    lcRewriteAll RT ents cs = cs.map (rewriteLC RT ents) := by
  unfold lcRewriteAll
  apply List.map_congr_left
  intro c hc
  simp [List.mem_map_of_mem NegDG.id hc]

/-! Helper lemmas about expression coefficients. -/

lemma coeff_append (e1 e2 : LinExpr) (a : Atom) :
    coeff (e1 ++ e2) a = coeff e1 a + coeff e2 a := by
  simp [coeff]

lemma coeff_flatMap {α : Type} (f : α → LinExpr) (a : Atom) :
    ∀ l : List α, coeff (l.flatMap f) a = (l.map (fun u => coeff (f u) a)).sum := by
  intro l
  induction l with
  | nil => simp [coeff]
  | cons x l ih => simp only [List.flatMap_cons, coeff_append, ih, List.map_cons,
      List.sum_cons]

lemma coeff_slackTerm_pos (q : ℚ) (u v : String) :
    coeff [(q, Atom.posSlack u), (-q, Atom.negSlack u)] (Atom.posSlack v) =
      if u = v then q else 0 := by
  by_cases h : u = v <;> simp [coeff, h]

lemma coeff_slackTerm_neg (q : ℚ) (u v : String) :
    coeff [(q, Atom.posSlack u), (-q, Atom.negSlack u)] (Atom.negSlack v) =
      if u = v then -q else 0 := by
  by_cases h : u = v <;> simp [coeff, h]

lemma coeff_slackTerm_var (q : ℚ) (u n : String) :
    coeff [(q, Atom.posSlack u), (-q, Atom.negSlack u)] (Atom.var n) = 0 := by
  simp [coeff]

lemma sum_map_ite_single (g : String → ℚ) :
    ∀ (l : List String) (v : String), l.Nodup →
      (l.map (fun u => if u = v then g u else 0)).sum = if v ∈ l then g v else 0 := by
  intro l
  induction l with
  | nil => intro v _; simp
  | cons x l ih =>
    intro v hnd
    rcases List.nodup_cons.mp hnd with ⟨hx, hnd'⟩
    by_cases h : x = v
    · subst h
      simp [ih x hnd', hx]
    · have h2 : (v ∈ x :: l) ↔ (v ∈ l) := by
        simp [List.mem_cons]
        intro hv
        exact absurd hv.symm h
      simp only [List.map_cons, List.sum_cons, h, if_false, ih v hnd', zero_add, h2]

lemma coeff_zero_of_plain (e : LinExpr) (h : ∀ p ∈ e, p.2.isPlainVar = true) :
    ∀ s : String,
      coeff e (Atom.posSlack s) = 0 ∧ coeff e (Atom.negSlack s) = 0 := by
  intro s
  constructor <;>
  · apply List.sum_eq_zero
    intro x hx
    rcases List.mem_map.mp hx with ⟨p, hp, hpx⟩
    have := h p hp
    cases hpa : p.2 <;> rw [hpa] at this hpx <;> simp_all [Atom.isPlainVar]

lemma coeff_contribution_pos (RT : ℚ) (r : Reaction) (ents vs : List String)
    (v : String) (hnd : vs.Nodup) :
    coeff (slackContribution RT r ents vs) (Atom.posSlack v) =
      if v ∈ vs ∧ v ∈ ents then RT * r.stoich v else 0 := by
  unfold slackContribution
  rw [coeff_flatMap]
  have h1 : ((vs.filter (fun u => u ∈ ents)).map
      (fun u => coeff [(RT * r.stoich u, Atom.posSlack u),
        (-(RT * r.stoich u), Atom.negSlack u)] (Atom.posSlack v))) =
      ((vs.filter (fun u => u ∈ ents)).map
      (fun u => if u = v then RT * r.stoich u else 0)) := by
    apply List.map_congr_left
    intro u _
    exact coeff_slackTerm_pos _ u v
  rw [h1, sum_map_ite_single _ _ v (hnd.filter _)]
  have h2 : (v ∈ vs.filter (fun u => u ∈ ents)) ↔ (v ∈ vs ∧ v ∈ ents) := by
    simp [List.mem_filter]
  simp only [h2]

lemma coeff_contribution_neg (RT : ℚ) (r : Reaction) (ents vs : List String)
    (v : String) (hnd : vs.Nodup) :
    coeff (slackContribution RT r ents vs) (Atom.negSlack v) =
      if v ∈ vs ∧ v ∈ ents then -(RT * r.stoich v) else 0 := by
  unfold slackContribution
  rw [coeff_flatMap]
  have h1 : ((vs.filter (fun u => u ∈ ents)).map
      (fun u => coeff [(RT * r.stoich u, Atom.posSlack u),
        (-(RT * r.stoich u), Atom.negSlack u)] (Atom.negSlack v))) =
      ((vs.filter (fun u => u ∈ ents)).map
      (fun u => if u = v then -(RT * r.stoich u) else 0)) := by
    apply List.map_congr_left
    intro u _
    exact coeff_slackTerm_neg _ u v
  rw [h1, sum_map_ite_single _ _ v (hnd.filter _)]
  have h2 : (v ∈ vs.filter (fun u => u ∈ ents)) ↔ (v ∈ vs ∧ v ∈ ents) := by
    simp [List.mem_filter]
  simp only [h2]

lemma coeff_contribution_var (RT : ℚ) (r : Reaction) (ents vs : List String)
    (n : String) :
    coeff (slackContribution RT r ents vs) (Atom.var n) = 0 := by
  unfold slackContribution
  rw [coeff_flatMap]
  apply List.sum_eq_zero
  intro x hx
  rcases List.mem_map.mp hx with ⟨u, _, hux⟩
  rw [← hux]
  exact coeff_slackTerm_var _ u n

/-! Inversion lemmas for the two relaxers. -/

lemma relax_dgo_ok_inv (m : TModel) (ign : List String) (o : Oracles)
    (sol : SlackSol) (out : RelaxDgoOut)
    (hs : o.slackSolve = Except.ok sol)
    (h : relax_dgo m ign o = Except.ok out) :
    out = ⟨(readBackLoop ign sol.negVal sol.posVal
              (m.reactions.map Reaction.id) m.dgoVars).1,
           injectDgo ign (m.dgoVars.map Var.id) m.negDG,
           ⟨reportColumns,
            (readBackLoop ign sol.negVal sol.posVal
              (m.reactions.map Reaction.id) m.dgoVars).2⟩,
           probeLog o⟩ := by
  unfold relax_dgo at h
  rw [hs] at h
  cases hf : o.finalSolve with
  | error e => rw [hf] at h; exact absurd h (by simp)
  | ok u =>
    cases u
    rw [hf] at h
    dsimp only at h
    by_cases hemp : (readBackLoop ign sol.negVal sol.posVal
        (m.reactions.map Reaction.id) m.dgoVars).2 = []
    · rw [if_pos hemp] at h
      exact absurd h (by simp)
    · rw [if_neg hemp] at h
      simp only [Except.ok.injEq] at h
      exact h.symm

lemma relax_lc_ok_inv (m : TModel) (ign : List String) (o : Oracles)
    (sol : SlackSol) (out : RelaxLCOut)
    (hs : o.slackSolve = Except.ok sol)
    (h : relax_lc m ign o = Except.ok out) :
    out = ⟨(readBackLoop ign sol.negVal sol.posVal m.metabolites m.lcVars).1,
           ⟨lcRewriteAll m.RT ((lcSlackPairs ign m.lcVars).1.map Var.id) m.negDG,
            (lcSlackPairs ign m.lcVars).1,
            (lcSlackPairs ign m.lcVars).2.1,
            (lcSlackPairs ign m.lcVars).2.2⟩,
           ⟨reportColumns,
            (readBackLoop ign sol.negVal sol.posVal m.metabolites m.lcVars).2⟩,
           probeLog o⟩ := by
  unfold relax_lc at h
  rw [hs] at h
  cases hf : o.finalSolve with
  | error e => rw [hf] at h; exact absurd h (by simp)
  | ok u =>
    cases u
    rw [hf] at h
    dsimp only at h
    by_cases hemp : (readBackLoop ign sol.negVal sol.posVal
        m.metabolites m.lcVars).2 = []
    · rw [if_pos hemp] at h
      exact absurd h (by simp)
    · rw [if_neg hemp] at h
      simp only [Except.ok.injEq] at h
      exact h.symm

lemma relax_dgo_slack_err (m : TModel) (ign : List String) (o : Oracles)
    (e : String) (hs : o.slackSolve = Except.error e) :
    relax_dgo m ign o = Except.error e := by
  unfold relax_dgo
  rw [hs]

lemma relax_lc_slack_err (m : TModel) (ign : List String) (o : Oracles)
    (e : String) (hs : o.slackSolve = Except.error e) :
    relax_lc m ign o = Except.error e := by
  unfold relax_lc
  rw [hs]

lemma relax_dgo_final_err (m : TModel) (ign : List String) (o : Oracles)
    (sol : SlackSol) (e : String)
    (hs : o.slackSolve = Except.ok sol) (hf : o.finalSolve = Except.error e) :
    relax_dgo m ign o = Except.error e := by
  unfold relax_dgo
  rw [hs, hf]

lemma relax_lc_final_err (m : TModel) (ign : List String) (o : Oracles)
    (sol : SlackSol) (e : String)
    (hs : o.slackSolve = Except.ok sol) (hf : o.finalSolve = Except.error e) :
    relax_lc m ign o = Except.error e := by
  unfold relax_lc
  rw [hs, hf]

lemma relax_dgo_ok_of_solves (m : TModel) (ign : List String) (o : Oracles)
    (sol : SlackSol)
    (hs : o.slackSolve = Except.ok sol) (hf : o.finalSolve = Except.ok ())
    (hne : (readBackLoop ign sol.negVal sol.posVal
      (m.reactions.map Reaction.id) m.dgoVars).2 ≠ []) :
    relax_dgo m ign o = Except.ok
      ⟨(readBackLoop ign sol.negVal sol.posVal
          (m.reactions.map Reaction.id) m.dgoVars).1,
       injectDgo ign (m.dgoVars.map Var.id) m.negDG,
       ⟨reportColumns,
        (readBackLoop ign sol.negVal sol.posVal
          (m.reactions.map Reaction.id) m.dgoVars).2⟩,
       probeLog o⟩ := by
  unfold relax_dgo
  rw [hs, hf]
  dsimp only
  rw [if_neg hne]

lemma relax_lc_ok_of_solves (m : TModel) (ign : List String) (o : Oracles)
    (sol : SlackSol)
    (hs : o.slackSolve = Except.ok sol) (hf : o.finalSolve = Except.ok ())
    (hne : (readBackLoop ign sol.negVal sol.posVal
      m.metabolites m.lcVars).2 ≠ []) :
    relax_lc m ign o = Except.ok
      ⟨(readBackLoop ign sol.negVal sol.posVal m.metabolites m.lcVars).1,
       ⟨lcRewriteAll m.RT ((lcSlackPairs ign m.lcVars).1.map Var.id) m.negDG,
        (lcSlackPairs ign m.lcVars).1,
        (lcSlackPairs ign m.lcVars).2.1,
        (lcSlackPairs ign m.lcVars).2.2⟩,
       ⟨reportColumns,
        (readBackLoop ign sol.negVal sol.posVal m.metabolites m.lcVars).2⟩,
       probeLog o⟩ := by
  unfold relax_lc
  rw [hs, hf]
  dsimp only
  rw [if_neg hne]

/-! Claim theorems. -/

/-- Claim C1: for every entity that gets a report row in `relax_dgo` (and
likewise `relax_lc`), the applied lower- and upper-bound deltas read from the
slack solution are non-negative (relying on the solver contract that the
solution respects the injected slack bounds `[0, BIGM_DG]`, and, for
`relax_dgo`, on every `DeltaGstd` reaction owning a `NegativeDeltaG`
constraint so that its slack pair exists), and the relaxed bounds satisfy
`new lb = old lb - (negative slack + EPSILON)` and
`new ub = old ub + (positive slack + EPSILON)` exactly. -/
theorem relax_applied_deltas_nonneg_and_exact
    (m : TModel) (ign : List String) (o : Oracles) (sol : SlackSol)
    (hs : o.slackSolve = Except.ok sol) :
    (∀ out, relax_dgo m ign o = Except.ok out →
      (∀ e ∈ m.dgoVars.map Var.id, e ∈ m.negDG.map NegDG.id) →
      solFeasibleDgo out.slackModel sol →
      ∀ row ∈ out.table.rows,
        0 ≤ row.lb_change ∧ 0 ≤ row.ub_change ∧
        row.lb_out = row.lb_in - (row.lb_change + EPSILON) ∧
        row.ub_out = row.ub_in + (row.ub_change + EPSILON)) ∧
    (∀ out, relax_lc m ign o = Except.ok out →
      solFeasibleLC out.slackModel sol →
      ∀ row ∈ out.table.rows,
        0 ≤ row.lb_change ∧ 0 ≤ row.ub_change ∧
        row.lb_out = row.lb_in - (row.lb_change + EPSILON) ∧
        row.ub_out = row.ub_in + (row.ub_change + EPSILON)) := by
  constructor
  · intro out hout hc hfe row hrow
    rw [relax_dgo_ok_inv m ign o sol out hs hout] at hrow hfe
    have hspec := readBack_rows_spec ign sol.negVal sol.posVal
      (m.reactions.map Reaction.id) m.dgoVars row hrow
    rcases hspec with ⟨hign, hdgo, hlb, hub, _, hlo, huo⟩
    have hkeyc : ∃ c ∈ m.negDG, c.id = row.key := by
      have := hc row.key hdgo
      rcases List.mem_map.mp this with ⟨c, hcm, hcid⟩
      exact ⟨c, hcm, hcid⟩
    have hkmem : row.key ∈
        ((injectDgo ign (m.dgoVars.map Var.id) m.negDG).negSlackVars.map Var.id) :=
      (injectDgo_neg_mem ign (m.dgoVars.map Var.id) m.negDG row.key).mpr
        ⟨hkeyc, hign, hdgo⟩
    rcases List.mem_map.mp hkmem with ⟨v, hvmem, hvid⟩
    have hshape := injectDgo_neg_shape ign (m.dgoVars.map Var.id) m.negDG v hvmem
    have hneg := hfe.1 v hvmem
    have hpos : 0 ≤ sol.posVal row.key := by
      have hvmem' : v ∈ (injectDgo ign (m.dgoVars.map Var.id) m.negDG).posSlackVars := by
        rw [injectDgo_pos_eq_neg]
        exact hvmem
      have := (hfe.2 v hvmem').1
      rw [hshape.1] at this
      rwa [hvid] at this
    have hneg' : 0 ≤ sol.negVal row.key := by
      have := hneg.1
      rw [hshape.1] at this
      rwa [hvid] at this
    exact ⟨hlb ▸ hneg', hub ▸ hpos, hlo, huo⟩
  · intro out hout hfe row hrow
    rw [relax_lc_ok_inv m ign o sol out hs hout] at hrow hfe
    have hspec := readBack_rows_spec ign sol.negVal sol.posVal
      m.metabolites m.lcVars row hrow
    rcases hspec with ⟨hign, hlc, hlb, hub, _, hlo, huo⟩
    have hkmem : row.key ∈ (lcSlackPairs ign m.lcVars).1.map Var.id := by
      rw [lcSlackPairs_ids]
      exact hlc
    rcases List.mem_map.mp hkmem with ⟨v, hvmem, hvid⟩
    have hshape := lcSlackPairs_neg_shape ign m.lcVars v hvmem
    have hneg := hfe.1 v hvmem
    have hpos : 0 ≤ sol.posVal row.key := by
      have hvmem' : v ∈ (lcSlackPairs ign m.lcVars).2.1 := by
        rw [lcSlackPairs_pos_eq_neg]
        exact hvmem
      have := (hfe.2 v hvmem').1
      rw [hshape.1] at this
      rwa [hvid] at this
    have hneg' : 0 ≤ sol.negVal row.key := by
      have := hneg.1
      rw [hshape.1] at this
      rwa [hvid] at this
    exact ⟨hlb ▸ hneg', hub ▸ hpos, hlo, huo⟩

/-- Witness for C1: on the concrete one-reaction model with slack values
(2, 3), `relax_dgo` succeeds and every report row satisfies the claim. -/
theorem relax_applied_deltas_nonneg_and_exact_witness :
    ∃ out, relax_dgo mW [] oW = Except.ok out ∧
      ∀ row ∈ out.table.rows,
        0 ≤ row.lb_change ∧ 0 ≤ row.ub_change ∧
        row.lb_out = row.lb_in - (row.lb_change + EPSILON) ∧
        row.ub_out = row.ub_in + (row.ub_change + EPSILON) := by
  refine ⟨_, rfl, ?_⟩
  exact (relax_applied_deltas_nonneg_and_exact mW [] oW solW rfl).1 _ rfl
    (by decide) ⟨by decide, by decide⟩

lemma filter_id_nil (E : String) :
    ∀ l : List Var, E ∉ l.map Var.id → l.filter (fun v => v.id == E) = [] := by
  intro l
  induction l with
  | nil => intro _; rfl
  | cons w l ih =>
    intro h
    simp only [List.map_cons, List.mem_cons] at h
    push_neg at h
    have hb : (w.id == E) = false := by
      simp only [beq_eq_false_iff_ne]
      exact fun hh => h.1 hh.symm
    simp only [List.filter_cons, hb, Bool.false_eq_true, if_false]
    exact ih h.2

/-- Claim C2: in `relax_lc`, after substituting a non-positivity-of-Gibbs
constraint into the slack-model namespace, each of its original variables
that owns an injected slack pair contributes
`RT * stoichiometric coefficient * (positive slack - negative slack)` to the
rebuilt expression — i.e. the rebuilt expression's coefficient on the
positive slack is `RT * stoich` and on the negative slack `-(RT * stoich)` —
while variables without a slack pair contribute nothing (zero slack
coefficients), and the coefficients of the original variables are
unchanged. -/
theorem relax_lc_slack_injection_coefficients
    (RT : ℚ) (ents : List String) (c : NegDG)
    (hnd : c.vars.Nodup)
    (hplain : ∀ p ∈ c.expr, p.2.isPlainVar = true) :
    (∀ v ∈ c.vars, v ∈ ents →
      coeff (rewriteLC RT ents c).expr (Atom.posSlack v) = RT * c.reaction.stoich v ∧
      coeff (rewriteLC RT ents c).expr (Atom.negSlack v) = -(RT * c.reaction.stoich v)) ∧
    (∀ v ∈ c.vars, v ∉ ents →
      coeff (rewriteLC RT ents c).expr (Atom.posSlack v) = 0 ∧
      coeff (rewriteLC RT ents c).expr (Atom.negSlack v) = 0) ∧
    (∀ n, coeff (rewriteLC RT ents c).expr (Atom.var n) = coeff c.expr (Atom.var n)) := by
  have hexpr : (rewriteLC RT ents c).expr =
      c.expr ++ slackContribution RT c.reaction ents c.vars := rfl
  refine ⟨?_, ?_, ?_⟩
  · intro v hv hve
    rw [hexpr, coeff_append, coeff_append,
      (coeff_zero_of_plain c.expr hplain v).1,
      (coeff_zero_of_plain c.expr hplain v).2,
      coeff_contribution_pos RT c.reaction ents c.vars v hnd,
      coeff_contribution_neg RT c.reaction ents c.vars v hnd,
      if_pos ⟨hv, hve⟩, if_pos ⟨hv, hve⟩]
    exact ⟨zero_add _, zero_add _⟩
  · intro v _ hve
    have hcond : ¬ (v ∈ c.vars ∧ v ∈ ents) := fun hh => hve hh.2
    rw [hexpr, coeff_append, coeff_append,
      (coeff_zero_of_plain c.expr hplain v).1,
      (coeff_zero_of_plain c.expr hplain v).2,
      coeff_contribution_pos RT c.reaction ents c.vars v hnd,
      coeff_contribution_neg RT c.reaction ents c.vars v hnd,
      if_neg hcond, if_neg hcond]
    exact ⟨zero_add _, zero_add _⟩
  · intro n
    rw [hexpr, coeff_append, coeff_contribution_var, add_zero]

/-- Witness for C2: injecting `M1`'s slack pair (stoichiometric coefficient
−2 in `R1`) with `RT = 5/2` yields slack coefficients `RT * (-2) = -5` and
`5` in the rewritten constraint. -/
theorem relax_lc_slack_injection_coefficients_witness :
    coeff (rewriteLC (5 / 2) ["M1"] cW).expr (Atom.posSlack "M1") = -5 ∧
    coeff (rewriteLC (5 / 2) ["M1"] cW).expr (Atom.negSlack "M1") = 5 := by
  have h := (relax_lc_slack_injection_coefficients (5 / 2) ["M1"] cW
    (by decide) (by decide)).1 "M1" (by decide) (by decide)
  have hst : cW.reaction.stoich "M1" = -2 := rfl
  rw [hst] at h
  constructor
  · rw [h.1]; norm_num
  · rw [h.2]; norm_num

/-- Claim C9: in `relax_lc`'s constraint-rewriting loop the guard
`this_neg_dg.id not in my_neg_dg` is always false — every iterated
constraint's id is in the iterated collection — so the `continue` branch is
unreachable and every non-positivity-of-Gibbs constraint is rewritten with
no exclusion filtering. -/
theorem relax_lc_guard_dead_code (RT : ℚ) (ents : List String)
    (cs : List NegDG) (c : NegDG) (hc : c ∈ cs) :
    (c.id ∈ cs.map NegDG.id) ∧
    lcRewriteAll RT ents cs = cs.map (rewriteLC RT ents) :=
  ⟨List.mem_map_of_mem NegDG.id hc, lcRewriteAll_eq_map RT ents cs⟩

/-- Witness for C9 at the concrete one-constraint model. -/
theorem relax_lc_guard_dead_code_witness :
    (cW.id ∈ [cW].map NegDG.id) ∧
    lcRewriteAll (5 / 2) ["M1"] [cW] = [cW].map (rewriteLC (5 / 2) ["M1"]) :=
  relax_lc_guard_dead_code (5 / 2) ["M1"] [cW] cW (by decide)

/-- Claim C10: report rows appear in the order their owning entities occur
in the model's entity list — `relax_dgo`'s row keys form a sublist of the
reaction ids, `relax_lc`'s of the metabolite ids. -/
theorem relax_report_row_order (m : TModel) (ign : List String) (o : Oracles)
    (sol : SlackSol) (hs : o.slackSolve = Except.ok sol) :
    (∀ out, relax_dgo m ign o = Except.ok out →
      List.Sublist (out.table.rows.map Row.key) (m.reactions.map Reaction.id)) ∧
    (∀ out, relax_lc m ign o = Except.ok out →
      List.Sublist (out.table.rows.map Row.key) m.metabolites) := by
  constructor
  · intro out hout
    rw [relax_dgo_ok_inv m ign o sol out hs hout]
    exact readBack_rows_sublist ign sol.negVal sol.posVal
      (m.reactions.map Reaction.id) m.dgoVars
  · intro out hout
    rw [relax_lc_ok_inv m ign o sol out hs hout]
    exact readBack_rows_sublist ign sol.negVal sol.posVal
      m.metabolites m.lcVars

/-- Witness for C10 on the concrete model. -/
theorem relax_report_row_order_witness :
    ∃ out, relax_dgo mW [] oW = Except.ok out ∧
      List.Sublist (out.table.rows.map Row.key) (mW.reactions.map Reaction.id) := by
  refine ⟨_, rfl, ?_⟩
  exact (relax_report_row_order mW [] oW solW rfl).1 _ rfl

/-- Claim C3 (what the code actually does in the claimed scenario): when the
slack minimization yields all slack values zero, no entity is relaxed, the
`changes` dict stays empty, and the report formatting's column assignment
(lines 167-172 / 331-336) raises the pandas length-mismatch error on the
0-column DataFrame instead of returning an empty report — for both
relaxers, here evaluated on the concrete one-reaction, one-metabolite model
with the all-zero slack solution. -/
theorem relax_empty_report_raises :
    relax_dgo mW [] oZ = Except.error lengthMismatchError ∧
    relax_lc mW [] oZ = Except.error lengthMismatchError :=
  ⟨rfl, rfl⟩

/-- Counterexample for C4 as stated: in this `relax_lc` run the ignored
metabolite `M1` owns a slack pair whose slack values are strictly positive,
yet the returned report (nonempty thanks to `M2`) has no `M1` row — the
claimed iff between row presence and strictly positive slack fails, because
the injection pass creates slack pairs even for ignored metabolites while
the read-back pass skips them. -/
theorem relax_report_membership_cex :
    ∃ out, relax_lc mW2 ["M1"] oW2 = Except.ok out ∧
      "M1" ∈ out.slackModel.negSlackVars.map Var.id ∧
      (0 < solW2.negVal "M1" ∨ 0 < solW2.posVal "M1") ∧
      ∀ row ∈ out.table.rows, row.key ≠ "M1" := by
  refine ⟨_, rfl, by decide, by decide, ?_⟩
  decide

/-- Claim C4 (amended): the report's columns are exactly
`[lb_in, ub_in, lb_change, ub_change, lb_out, ub_out]`; for `relax_dgo` a
slack-pair entity has a row iff at least one of its slack values is strictly
positive; for `relax_lc` a slack-pair metabolite has a row iff it is not in
the ignore set and at least one of its slack values is strictly positive —
ignored metabolites still own slack pairs (the injection-side ignore check
at line 219 never fires) and can carry strictly positive slack with no row.
Each relaxer needs its entities to appear in the iterated model list (every
constraint's reaction among the reactions, every log-concentration
variable's metabolite among the metabolites). -/
theorem relax_report_membership_and_columns
    (m : TModel) (ign : List String) (o : Oracles) (sol : SlackSol)
    (hs : o.slackSolve = Except.ok sol) :
    (∀ out, relax_dgo m ign o = Except.ok out →
      out.table.columns =
        ["lb_in", "ub_in", "lb_change", "ub_change", "lb_out", "ub_out"] ∧
      ((∀ c ∈ m.negDG, c.id ∈ m.reactions.map Reaction.id) →
        ∀ E ∈ out.slackModel.negSlackVars.map Var.id,
          ((∃ row ∈ out.table.rows, row.key = E) ↔
            (0 < sol.negVal E ∨ 0 < sol.posVal E)))) ∧
    (∀ out, relax_lc m ign o = Except.ok out →
      out.table.columns =
        ["lb_in", "ub_in", "lb_change", "ub_change", "lb_out", "ub_out"] ∧
      ((∀ v ∈ m.lcVars, v.id ∈ m.metabolites) →
        ∀ E ∈ out.slackModel.negSlackVars.map Var.id,
          ((∃ row ∈ out.table.rows, row.key = E) ↔
            (E ∉ ign ∧ (0 < sol.negVal E ∨ 0 < sol.posVal E))))) := by
  constructor
  · intro out hout
    rw [relax_dgo_ok_inv m ign o sol out hs hout]
    refine ⟨rfl, ?_⟩
    intro hr E hE
    rcases (injectDgo_neg_mem ign (m.dgoVars.map Var.id) m.negDG E).mp hE with
      ⟨⟨c, hcm, hcid⟩, hign, hdgo⟩
    constructor
    · rintro ⟨row, hrow, rfl⟩
      have hspec := readBack_rows_spec ign sol.negVal sol.posVal
        (m.reactions.map Reaction.id) m.dgoVars row hrow
      rcases hspec with ⟨_, _, hlb, hub, hp, _, _⟩
      rw [hlb, hub] at hp
      exact hp
    · intro hp
      exact readBack_mem_rows ign sol.negVal sol.posVal
        (m.reactions.map Reaction.id) m.dgoVars E
        (hcid ▸ hr c hcm) hign hdgo hp
  · intro out hout
    rw [relax_lc_ok_inv m ign o sol out hs hout]
    refine ⟨rfl, ?_⟩
    intro hr E hE
    rw [lcSlackPairs_ids] at hE
    rcases List.mem_map.mp hE with ⟨v, hvm, hvid⟩
    constructor
    · rintro ⟨row, hrow, rfl⟩
      have hspec := readBack_rows_spec ign sol.negVal sol.posVal
        m.metabolites m.lcVars row hrow
      rcases hspec with ⟨hign, _, hlb, hub, hp, _, _⟩
      rw [hlb, hub] at hp
      exact ⟨hign, hp⟩
    · rintro ⟨hign, hp⟩
      exact readBack_mem_rows ign sol.negVal sol.posVal m.metabolites m.lcVars E
        (hvid ▸ hr v hvm) hign hE hp

/-- Witness for the amended C4: on the two-metabolite model with nothing
ignored, `M2` owns a slack pair, is not ignored, its slack values are
strictly positive, so the report has an `M2` row, and the columns come out
in the fixed order. -/
theorem relax_report_membership_and_columns_witness :
    ∃ out, relax_lc mW2 [] oW2 = Except.ok out ∧
      out.table.columns =
        ["lb_in", "ub_in", "lb_change", "ub_change", "lb_out", "ub_out"] ∧
      ∃ row ∈ out.table.rows, row.key = "M2" := by
  refine ⟨_, rfl, ?_⟩
  have h := (relax_report_membership_and_columns mW2 [] oW2 solW2 rfl).2 _ rfl
  refine ⟨h.1, ?_⟩
  exact (h.2 (by decide) "M2" (by decide)).mpr ⟨by decide, by decide⟩

/-- Claim C5: an entity placed in the ignore set gets no report row and its
variable's bounds in the relaxed model are exactly its bounds in the input
model, whatever the slack solution says. -/
theorem relax_ignored_entity_untouched
    (m : TModel) (ign : List String) (o : Oracles) (sol : SlackSol) (E : String)
    (hs : o.slackSolve = Except.ok sol) (hE : E ∈ ign) :
    (∀ out, relax_dgo m ign o = Except.ok out →
      (∀ row ∈ out.table.rows, row.key ≠ E) ∧
      out.dgoVars.filter (fun v => v.id == E) =
        m.dgoVars.filter (fun v => v.id == E)) ∧
    (∀ out, relax_lc m ign o = Except.ok out →
      (∀ row ∈ out.table.rows, row.key ≠ E) ∧
      out.lcVars.filter (fun v => v.id == E) =
        m.lcVars.filter (fun v => v.id == E)) := by
  constructor
  · intro out hout
    rw [relax_dgo_ok_inv m ign o sol out hs hout]
    constructor
    · intro row hrow hkey
      have hspec := readBack_rows_spec ign sol.negVal sol.posVal
        (m.reactions.map Reaction.id) m.dgoVars row hrow
      exact hspec.1 (hkey ▸ hE)
    · exact readBack_filter_ign ign sol.negVal sol.posVal E hE
        (m.reactions.map Reaction.id) m.dgoVars
  · intro out hout
    rw [relax_lc_ok_inv m ign o sol out hs hout]
    constructor
    · intro row hrow hkey
      have hspec := readBack_rows_spec ign sol.negVal sol.posVal
        m.metabolites m.lcVars row hrow
      exact hspec.1 (hkey ▸ hE)
    · exact readBack_filter_ign ign sol.negVal sol.posVal E hE
        m.metabolites m.lcVars

/-- Witness for C5: ignoring `R1` on the two-reaction model (whose slack
values for `R1` are positive, and whose `R2` row keeps the report nonempty)
yields no `R1` row and unchanged `R1` bounds. -/
theorem relax_ignored_entity_untouched_witness :
    ∃ out, relax_dgo mW2 ["R1"] oW2 = Except.ok out ∧
      (∀ row ∈ out.table.rows, row.key ≠ "R1") ∧
      out.dgoVars.filter (fun v => v.id == "R1") =
        mW2.dgoVars.filter (fun v => v.id == "R1") := by
  refine ⟨_, rfl, ?_⟩
  exact (relax_ignored_entity_untouched mW2 ["R1"] oW2 solW2 "R1" rfl
    (by decide)).1 _ rfl

/-- Claim C6: a solver failure in the initial probe solve is caught and
logged (an error line plus a solver-status warning) and execution continues
— reaching a normal return whenever the rest of the run succeeds, i.e. the
two unguarded solves succeed and the report is nonempty — while a failure of
the slack-minimization solve or of the final relaxed-model solve is not
caught and propagates to the caller, in both relaxers. -/
theorem relax_solver_error_policy (m : TModel) (ign : List String) (o : Oracles) :
    (∀ e sol, o.probe = Except.error e → o.slackSolve = Except.ok sol →
      o.finalSolve = Except.ok () →
      (readBackLoop ign sol.negVal sol.posVal
        (m.reactions.map Reaction.id) m.dgoVars).2 ≠ [] →
      ∃ out, relax_dgo m ign o = Except.ok out ∧
        out.log = ["error: " ++ e, "warning: solver status " ++ o.probeStatus]) ∧
    (∀ e, o.slackSolve = Except.error e → relax_dgo m ign o = Except.error e) ∧
    (∀ e sol, o.slackSolve = Except.ok sol → o.finalSolve = Except.error e →
      relax_dgo m ign o = Except.error e) ∧
    (∀ e sol, o.probe = Except.error e → o.slackSolve = Except.ok sol →
      o.finalSolve = Except.ok () →
      (readBackLoop ign sol.negVal sol.posVal m.metabolites m.lcVars).2 ≠ [] →
      ∃ out, relax_lc m ign o = Except.ok out ∧
        out.log = ["error: " ++ e, "warning: solver status " ++ o.probeStatus]) ∧
    (∀ e, o.slackSolve = Except.error e → relax_lc m ign o = Except.error e) ∧
    (∀ e sol, o.slackSolve = Except.ok sol → o.finalSolve = Except.error e →
      relax_lc m ign o = Except.error e) := by
  refine ⟨?_, ?_, ?_, ?_, ?_, ?_⟩
  · intro e sol hp hsl hf hne
    refine ⟨_, relax_dgo_ok_of_solves m ign o sol hsl hf hne, ?_⟩
    simp [probeLog, hp]
  · intro e hsl
    exact relax_dgo_slack_err m ign o e hsl
  · intro e sol hsl hf
    exact relax_dgo_final_err m ign o sol e hsl hf
  · intro e sol hp hsl hf hne
    refine ⟨_, relax_lc_ok_of_solves m ign o sol hsl hf hne, ?_⟩
    simp [probeLog, hp]
  · intro e hsl
    exact relax_lc_slack_err m ign o e hsl
  · intro e sol hsl hf
    exact relax_lc_final_err m ign o sol e hsl hf

/-- Witness for C6: the probe failure is swallowed and logged, the other two
failures propagate. -/
theorem relax_solver_error_policy_witness :
    (∃ out, relax_dgo mW [] oProbeFail = Except.ok out ∧
      out.log = ["error: " ++ "probe boom",
                 "warning: solver status " ++ "infeasible"]) ∧
    relax_dgo mW [] oSlackFail = Except.error "slack boom" ∧
    relax_dgo mW [] oFinalFail = Except.error "final boom" := by
  refine ⟨?_, ?_, ?_⟩
  · exact (relax_solver_error_policy mW [] oProbeFail).1 "probe boom" solW
      rfl rfl rfl (by decide)
  · exact (relax_solver_error_policy mW [] oSlackFail).2.1 "slack boom" rfl
  · exact (relax_solver_error_policy mW [] oFinalFail).2.2.1 "final boom" solW
      rfl rfl

/-- Counterexample for C7 as stated: on the concrete run the recorded row
has `lb_out = lb_in - (lb_change + EPSILON)`, which differs from
`lb_in - lb_change` because the positive margin `EPSILON` is also applied
but not recorded in the delta column. -/
theorem relax_report_row_naive_consistency_cex :
    ∃ out row, relax_dgo mW [] oW = Except.ok out ∧ row ∈ out.table.rows ∧
      row.lb_out ≠ row.lb_in - row.lb_change := by
  refine ⟨_, ⟨"R1", -50, 50, 2, 3, -50 - (2 + EPSILON), 50 + (3 + EPSILON)⟩,
    rfl, List.Mem.head _, ?_⟩
  show (-50 : ℚ) - (2 + EPSILON) ≠ -50 - 2
  norm_num [EPSILON]

/-- Claim C7 (amended): in every report row the 6-tuple is internally
consistent once the epsilon margin is accounted for:
`lb_out = lb_in - (lb_change + EPSILON)` and
`ub_out = ub_in + (ub_change + EPSILON)`. -/
theorem relax_report_row_bound_consistency
    (m : TModel) (ign : List String) (o : Oracles) (sol : SlackSol)
    (hs : o.slackSolve = Except.ok sol) :
    (∀ out, relax_dgo m ign o = Except.ok out →
      ∀ row ∈ out.table.rows,
        row.lb_out = row.lb_in - (row.lb_change + EPSILON) ∧
        row.ub_out = row.ub_in + (row.ub_change + EPSILON)) ∧
    (∀ out, relax_lc m ign o = Except.ok out →
      ∀ row ∈ out.table.rows,
        row.lb_out = row.lb_in - (row.lb_change + EPSILON) ∧
        row.ub_out = row.ub_in + (row.ub_change + EPSILON)) := by
  constructor
  · intro out hout row hrow
    rw [relax_dgo_ok_inv m ign o sol out hs hout] at hrow
    have hspec := readBack_rows_spec ign sol.negVal sol.posVal
      (m.reactions.map Reaction.id) m.dgoVars row hrow
    exact ⟨hspec.2.2.2.2.2.1, hspec.2.2.2.2.2.2⟩
  · intro out hout row hrow
    rw [relax_lc_ok_inv m ign o sol out hs hout] at hrow
    have hspec := readBack_rows_spec ign sol.negVal sol.posVal
      m.metabolites m.lcVars row hrow
    exact ⟨hspec.2.2.2.2.2.1, hspec.2.2.2.2.2.2⟩

/-- Witness for the amended C7 on the concrete model. -/
theorem relax_report_row_bound_consistency_witness :
    ∃ out, relax_dgo mW [] oW = Except.ok out ∧
      ∀ row ∈ out.table.rows,
        row.lb_out = row.lb_in - (row.lb_change + EPSILON) ∧
        row.ub_out = row.ub_in + (row.ub_change + EPSILON) := by
  refine ⟨_, rfl, ?_⟩
  exact (relax_report_row_bound_consistency mW [] oW solW rfl).1 _ rfl

/-- Counterexample for C8 as stated: `relax_lc`'s slack-injection pass does
not skip an ignored metabolite that has a `LogConcentration` variable — in
this run the ignored `M1` still receives a slack pair (the line-219 check
compares the prefixed variable name against bare metabolite ids and never
fires), so the claim's "the slack-injection pass skips that entity" is
false. -/
theorem relax_missing_correspondence_cex :
    ∃ out, relax_lc mW2 ["M1"] oW2 = Except.ok out ∧
      "M1" ∈ out.slackModel.negSlackVars.map Var.id := by
  refine ⟨_, rfl, ?_⟩
  decide

/-- Claim C8 (amended): entities that are ignored or lack their
thermodynamic variable are skipped silently by the read-back pass in both
relaxers (no report row, bounds unchanged, and — the report being otherwise
nonempty — a normal return); `relax_dgo`'s injection pass also skips them
(no slack pair, constraint untouched), and `relax_lc`'s injection pass
creates no slack pair and injects zero slack coefficients for metabolites
without a `LogConcentration` variable — but an ignored metabolite that has
one still receives a slack pair, because the line-219 ignore check never
fires. -/
theorem relax_missing_correspondence_skipped
    (m : TModel) (ign : List String) (o : Oracles) (sol : SlackSol) (E : String)
    (hs : o.slackSolve = Except.ok sol) (hf : o.finalSolve = Except.ok ()) :
    ((E ∈ ign ∨ E ∉ m.dgoVars.map Var.id) →
      (readBackLoop ign sol.negVal sol.posVal
        (m.reactions.map Reaction.id) m.dgoVars).2 ≠ [] →
      ∃ out, relax_dgo m ign o = Except.ok out ∧
        E ∉ out.slackModel.negSlackVars.map Var.id ∧
        out.slackModel.constrs.filter (fun c => c.id == E) =
          m.negDG.filter (fun c => c.id == E) ∧
        (∀ row ∈ out.table.rows, row.key ≠ E) ∧
        out.dgoVars.filter (fun v => v.id == E) =
          m.dgoVars.filter (fun v => v.id == E)) ∧
    ((E ∈ ign ∨ E ∉ m.lcVars.map Var.id) →
      (readBackLoop ign sol.negVal sol.posVal m.metabolites m.lcVars).2 ≠ [] →
      ∃ out, relax_lc m ign o = Except.ok out ∧
        (∀ row ∈ out.table.rows, row.key ≠ E) ∧
        out.lcVars.filter (fun v => v.id == E) =
          m.lcVars.filter (fun v => v.id == E) ∧
        (E ∉ m.lcVars.map Var.id → E ∉ out.slackModel.negSlackVars.map Var.id) ∧
        (E ∈ m.lcVars.map Var.id → E ∈ out.slackModel.negSlackVars.map Var.id) ∧
        (E ∉ m.lcVars.map Var.id →
          ∀ c ∈ m.negDG, c.vars.Nodup →
          (∀ p ∈ c.expr, p.2.isPlainVar = true) →
          coeff ((rewriteLC m.RT ((lcSlackPairs ign m.lcVars).1.map Var.id) c).expr)
            (Atom.posSlack E) = 0 ∧
          coeff ((rewriteLC m.RT ((lcSlackPairs ign m.lcVars).1.map Var.id) c).expr)
            (Atom.negSlack E) = 0)) := by
  constructor
  · intro hE hne
    refine ⟨_, relax_dgo_ok_of_solves m ign o sol hs hf hne, ?_, ?_, ?_, ?_⟩
    · intro hmem
      rcases (injectDgo_neg_mem ign (m.dgoVars.map Var.id) m.negDG E).mp hmem with
        ⟨_, hign, hdgo⟩
      rcases hE with h | h
      · exact hign h
      · exact h hdgo
    · exact injectDgo_constrs_filter ign (m.dgoVars.map Var.id) E hE m.negDG
    · intro row hrow hkey
      have hspec := readBack_rows_spec ign sol.negVal sol.posVal
        (m.reactions.map Reaction.id) m.dgoVars row hrow
      rcases hE with h | h
      · exact hspec.1 (hkey ▸ h)
      · exact h (hkey ▸ hspec.2.1)
    · rcases hE with h | h
      · exact readBack_filter_ign ign sol.negVal sol.posVal E h
          (m.reactions.map Reaction.id) m.dgoVars
      · have hids : E ∉ ((readBackLoop ign sol.negVal sol.posVal
            (m.reactions.map Reaction.id) m.dgoVars).1).map Var.id := by
          rw [readBack_ids]
          exact h
        rw [filter_id_nil E _ hids, filter_id_nil E _ h]
  · intro hE hne
    refine ⟨_, relax_lc_ok_of_solves m ign o sol hs hf hne, ?_, ?_, ?_, ?_, ?_⟩
    · intro row hrow hkey
      have hspec := readBack_rows_spec ign sol.negVal sol.posVal
        m.metabolites m.lcVars row hrow
      rcases hE with h | h
      · exact hspec.1 (hkey ▸ h)
      · exact h (hkey ▸ hspec.2.1)
    · rcases hE with h | h
      · exact readBack_filter_ign ign sol.negVal sol.posVal E h
          m.metabolites m.lcVars
      · have hids : E ∉ ((readBackLoop ign sol.negVal sol.posVal
            m.metabolites m.lcVars).1).map Var.id := by
          rw [readBack_ids]
          exact h
        rw [filter_id_nil E _ hids, filter_id_nil E _ h]
    · intro h
      rw [lcSlackPairs_ids]
      exact h
    · intro h
      rw [lcSlackPairs_ids]
      exact h
    · intro h c _ hnd hplain
      have hEnotent : E ∉ (lcSlackPairs ign m.lcVars).1.map Var.id := by
        rw [lcSlackPairs_ids]
        exact h
      have hcond : ¬ (E ∈ c.vars ∧ E ∈ (lcSlackPairs ign m.lcVars).1.map Var.id) :=
        fun hh => hEnotent hh.2
      have hexpr : (rewriteLC m.RT ((lcSlackPairs ign m.lcVars).1.map Var.id) c).expr =
          c.expr ++ slackContribution m.RT c.reaction
            ((lcSlackPairs ign m.lcVars).1.map Var.id) c.vars := rfl
      rw [hexpr, coeff_append, coeff_append,
        (coeff_zero_of_plain c.expr hplain E).1,
        (coeff_zero_of_plain c.expr hplain E).2,
        coeff_contribution_pos _ _ _ _ E hnd,
        coeff_contribution_neg _ _ _ _ E hnd,
        if_neg hcond, if_neg hcond]
      exact ⟨zero_add 0, zero_add 0⟩

/-- Witness for the amended C8: `R3` is neither a reaction nor a metabolite
of the two-entity model; `relax_dgo` succeeds and skips it everywhere. -/
theorem relax_missing_correspondence_skipped_witness :
    ∃ out, relax_dgo mW2 [] oW2 = Except.ok out ∧
      "R3" ∉ out.slackModel.negSlackVars.map Var.id ∧
      out.slackModel.constrs.filter (fun c => c.id == "R3") =
        mW2.negDG.filter (fun c => c.id == "R3") ∧
      (∀ row ∈ out.table.rows, row.key ≠ "R3") ∧
      out.dgoVars.filter (fun v => v.id == "R3") =
        mW2.dgoVars.filter (fun v => v.id == "R3") :=
  (relax_missing_correspondence_skipped mW2 [] oW2 solW2 "R3" rfl rfl).1
    (Or.inr (by decide)) (by decide)

end PyTFA
